import Mathlib

/-!
Verification of the field-name normalization / homogenization pipeline and the
report-rationalization scorer of `src/streamlit_app.py` (insurance-data-discovery).

Python strings are modelled as `List Char`; the ASCII behaviour of `str.lower`,
`str.upper`, `str.strip` and of the character classes used by the regexes of the
source (`[^a-z0-9]`, `_`, `\w`, whitespace) is modelled through code points
(`Char.toNat`).  Machine floats of the scorer are modelled as rationals.
-/

/-- Python whitespace (ASCII): the characters removed by `str.strip()`. -/
def isPySpace (c : Char) : Bool :=
  decide (c.toNat = 32 ∨ c.toNat = 9 ∨ c.toNat = 10 ∨ c.toNat = 13 ∨
    c.toNat = 11 ∨ c.toNat = 12)

/-- Character class of the regex `[a-z0-9]` (the complement of `[^a-z0-9]`
in `normalize_col`, src line 13). -/
def isLowerAlnum (c : Char) : Bool :=
  decide ((97 ≤ c.toNat ∧ c.toNat ≤ 122) ∨ (48 ≤ c.toNat ∧ c.toNat ≤ 57))

/-- ASCII lowering of one character, modelling Python `str.lower`. -/
def pyLowerChar (c : Char) : Char :=
  if 65 ≤ c.toNat ∧ c.toNat ≤ 90 then Char.ofNat (c.toNat + 32) else c

/-- ASCII uppering of one character, modelling Python `str.upper`. -/
def pyUpperChar (c : Char) : Char :=
  if 97 ≤ c.toNat ∧ c.toNat ≤ 122 then Char.ofNat (c.toNat - 32) else c

/-- The underscore character test used by `re.sub("_+", "_", s)` and `s.strip("_")`. -/
def isUnder (c : Char) : Bool :=
  decide (c = '_')

/-- Drop the longest run of characters satisfying `p` from the front
(one side of Python `str.strip`). -/
def ltrim (p : Char → Bool) : List Char → List Char
  | [] => []
  | c :: cs => if p c then ltrim p cs else c :: cs

/-- Drop the longest run of characters satisfying `p` from the back
(the other side of Python `str.strip`). -/
def rtrim (p : Char → Bool) : List Char → List Char
  | [] => []
  | c :: cs =>
    match rtrim p cs with
    | [] => if p c then [] else [c]
    | d :: ds => c :: d :: ds

/-- Python `str.strip` with an explicit character class: trim both ends. -/
def pyStripWith (p : Char → Bool) (s : List Char) : List Char :=
  rtrim p (ltrim p s)

/-- Python `s.strip()` (whitespace). -/
def pyStrip (s : List Char) : List Char :=
  pyStripWith isPySpace s

/-- Python `s.strip("_")`. -/
def stripUnder (s : List Char) : List Char :=
  pyStripWith isUnder s

/-- Python `s.upper()` on a whole string (ASCII). -/
def pyUpper (s : List Char) : List Char :=
  s.map pyUpperChar

/-- Worker for `re.sub(r"[^a-z0-9]+", "_", s)`: each maximal run of
non-`[a-z0-9]` characters becomes one underscore.  The flag records whether the
previous character belonged to such a run. -/
def subNonAlnumAux : Bool → List Char → List Char
  | _, [] => []
  | inRun, c :: cs =>
    if isLowerAlnum c then c :: subNonAlnumAux false cs
    else if inRun then subNonAlnumAux true cs
    else '_' :: subNonAlnumAux true cs

/-- Model of `re.sub(r"[^a-z0-9]+", "_", s)` (src line 13). -/
def subNonAlnum (s : List Char) : List Char :=
  subNonAlnumAux false s

/-- Worker for `re.sub(r"_+", "_", s)`: each maximal run of underscores becomes
a single underscore.  The flag records whether the previous character was an
underscore. -/
def collapseAux : Bool → List Char → List Char
  | _, [] => []
  | prevU, c :: cs =>
    if isUnder c then
      (if prevU then collapseAux true cs else c :: collapseAux true cs)
    else c :: collapseAux false cs

/-- Model of `re.sub(r"_+", "_", s)` (src lines 14, 40, 69). -/
def collapseUnder (s : List Char) : List Char :=
  collapseAux false s

/-- Name Canonicalizer, `normalize_col` of src lines 11-15:
`str(name).strip().lower()`, then `re.sub(r"[^a-z0-9]+", "_", s)`, then
`re.sub(r"_+", "_", s)`, then `s.strip("_")`. -/
def normalize_col (name : List Char) : List Char :=
  let s := (pyStrip name).map pyLowerChar
  let s := subNonAlnum s
  let s := collapseUnder s
  stripUnder s

/-- A character allowed in a canonical key: lowercase alphanumeric or underscore. -/
def okChar (c : Char) : Bool :=
  isLowerAlnum c || isUnder c

/-- The first character, if any, does not satisfy `p`. -/
def headNot (p : Char → Bool) : List Char → Bool
  | [] => true
  | c :: _ => !p c

/-- The last character, if any, does not satisfy `p`. -/
def lastNot (p : Char → Bool) : List Char → Bool
  | [] => true
  | [c] => !p c
  | _ :: c :: cs => lastNot p (c :: cs)

/-- No two adjacent underscores; the flag states whether the (virtual)
preceding character was an underscore. -/
def noDoubleAfter : Bool → List Char → Bool
  | _, [] => true
  | prevU, c :: cs =>
    if isUnder c then !prevU && noDoubleAfter true cs else noDoubleAfter false cs

/-- No doubled underscore anywhere in the string. -/
def noDouble (s : List Char) : Bool :=
  noDoubleAfter false s

/-- No leading, trailing, or doubled underscore. -/
def underscoreOK (s : List Char) : Bool :=
  headNot isUnder s && lastNot isUnder s && noDouble s

/-- The canonical shape promised for `normalize_col` output: lowercase
alphanumeric runs joined by single underscores, no leading or trailing
underscore. -/
def underscoreAlnumForm (s : List Char) : Bool :=
  s.all okChar && underscoreOK s

theorem noDoubleAfter_cons (b : Bool) (c : Char) (l : List Char) :
    noDoubleAfter b (c :: l) =
      if isUnder c then !b && noDoubleAfter true l else noDoubleAfter false l := rfl

theorem collapseAux_cons (b : Bool) (c : Char) (l : List Char) :
    collapseAux b (c :: l) =
      if isUnder c then
        (if b then collapseAux true l else c :: collapseAux true l)
      else c :: collapseAux false l := rfl

theorem rtrim_cons (p : Char → Bool) (c : Char) (l : List Char) :
    rtrim p (c :: l) =
      match rtrim p l with
      | [] => if p c then [] else [c]
      | d :: ds => c :: d :: ds := rfl

theorem subNonAlnumAux_cons (b : Bool) (c : Char) (l : List Char) :
    subNonAlnumAux b (c :: l) =
      if isLowerAlnum c then c :: subNonAlnumAux false l
      else if b then subNonAlnumAux true l
      else '_' :: subNonAlnumAux true l := rfl

theorem isUnder_eq_false_of_isLowerAlnum {c : Char} (h : isLowerAlnum c = true) :
    isUnder c = false := by
  by_cases hc : c = '_'
  · subst hc; simp [isLowerAlnum] at h
  · simp [isUnder, hc]

theorem okChar_not_space {c : Char} (h : okChar c = true) : isPySpace c = false := by
  rcases Bool.or_eq_true _ _ |>.mp h with h1 | h2
  · have := of_decide_eq_true h1
    simp only [isPySpace, decide_eq_false_iff_not]
    omega
  · have : c = '_' := of_decide_eq_true h2
    subst this; decide

theorem okChar_lower_fix {c : Char} (h : okChar c = true) : pyLowerChar c = c := by
  rcases Bool.or_eq_true _ _ |>.mp h with h1 | h2
  · have := of_decide_eq_true h1
    unfold pyLowerChar
    rw [if_neg]
    omega
  · have : c = '_' := of_decide_eq_true h2
    subst this; decide

theorem all_map_lower_fix {s : List Char} (h : s.all okChar = true) :
    s.map pyLowerChar = s := by
  induction s with
  | nil => rfl
  | cons c cs ih =>
    rw [List.all_cons, Bool.and_eq_true] at h
    simp [okChar_lower_fix h.1, ih h.2]

theorem headNot_of_all {p : Char → Bool} {s : List Char}
    (h : s.all (fun c => !p c) = true) : headNot p s = true := by
  cases s with
  | nil => rfl
  | cons c cs =>
    rw [List.all_cons, Bool.and_eq_true] at h
    simp [headNot, h.1]

theorem ltrim_eq_self {p : Char → Bool} {s : List Char} (h : headNot p s = true) :
    ltrim p s = s := by
  cases s with
  | nil => rfl
  | cons c cs =>
    simp only [headNot, Bool.not_eq_true'] at h
    simp [ltrim, h]

theorem rtrim_eq_self_of_all {p : Char → Bool} {s : List Char}
    (h : s.all (fun c => !p c) = true) : rtrim p s = s := by
  induction s with
  | nil => rfl
  | cons c cs ih =>
    rw [List.all_cons, Bool.and_eq_true] at h
    have hc : p c = false := by simpa using h.1
    rw [rtrim, ih h.2]
    cases cs with
    | nil => simp [hc]
    | cons d ds => rfl

theorem rtrim_eq_self_of_lastNot {p : Char → Bool} {s : List Char}
    (h : lastNot p s = true) : rtrim p s = s := by
  induction s with
  | nil => rfl
  | cons c cs ih =>
    cases cs with
    | nil =>
      simp only [lastNot, Bool.not_eq_true'] at h
      simp [rtrim, h]
    | cons d ds =>
      have h' : lastNot p (d :: ds) = true := h
      rw [rtrim, ih h']

theorem ltrim_all {p q : Char → Bool} {s : List Char} (h : s.all q = true) :
    (ltrim p s).all q = true := by
  induction s with
  | nil => rfl
  | cons c cs ih =>
    rw [List.all_cons, Bool.and_eq_true] at h
    by_cases hc : p c = true
    · simp [ltrim, hc, ih h.2]
    · simp only [Bool.not_eq_true] at hc
      simp [ltrim, hc, List.all_cons, h.1, h.2]

theorem rtrim_all {p q : Char → Bool} {s : List Char} (h : s.all q = true) :
    (rtrim p s).all q = true := by
  induction s with
  | nil => rfl
  | cons c cs ih =>
    rw [List.all_cons, Bool.and_eq_true] at h
    rw [rtrim]
    cases hr : rtrim p cs with
    | nil =>
      by_cases hc : p c = true
      · simp [hc]
      · simp only [Bool.not_eq_true] at hc
        simp [hc, List.all_cons, h.1]
    | cons d ds =>
      have := ih h.2
      rw [hr] at this
      simp [List.all_cons, h.1, this]

theorem collapseAux_all {q : Char → Bool} {s : List Char} (h : s.all q = true) :
    ∀ b, (collapseAux b s).all q = true := by
  induction s with
  | nil => intro b; rfl
  | cons c cs ih =>
    intro b
    rw [List.all_cons, Bool.and_eq_true] at h
    by_cases hc : isUnder c = true
    · cases b with
      | true => simp [collapseAux, hc, ih h.2]
      | false => simp [collapseAux, hc, List.all_cons, h.1, ih h.2]
    · simp only [Bool.not_eq_true] at hc
      simp [collapseAux, hc, List.all_cons, h.1, ih h.2]

theorem subNonAlnumAux_all : ∀ (b : Bool) (s : List Char),
    (subNonAlnumAux b s).all okChar = true := by
  intro b s
  induction s generalizing b with
  | nil => rfl
  | cons c cs ih =>
    by_cases hc : isLowerAlnum c = true
    · simp [subNonAlnumAux, hc, List.all_cons, okChar, ih false]
    · simp only [Bool.not_eq_true] at hc
      cases b with
      | true => simp [subNonAlnumAux, hc, ih true]
      | false => simp [subNonAlnumAux, hc, List.all_cons, okChar, isUnder, ih true]

theorem collapseAux_noDouble : ∀ (s : List Char) (b : Bool),
    noDoubleAfter b (collapseAux b s) = true := by
  intro s
  induction s with
  | nil => intro b; rfl
  | cons c cs ih =>
    intro b
    by_cases hc : isUnder c = true
    · cases b with
      | true => simpa [collapseAux, hc] using ih true
      | false => simpa [collapseAux, hc, noDoubleAfter] using ih true
    · simp only [Bool.not_eq_true] at hc
      simpa [collapseAux, hc, noDoubleAfter] using ih false

theorem noDoubleAfter_false_of_true {s : List Char}
    (h : noDoubleAfter true s = true) : noDoubleAfter false s = true := by
  cases s with
  | nil => rfl
  | cons c cs =>
    by_cases hc : isUnder c = true
    · simp [noDoubleAfter, hc] at h
    · simp only [Bool.not_eq_true] at hc
      simpa [noDoubleAfter, hc] using h

theorem ltrim_noDouble {s : List Char} (h : noDouble s = true) :
    noDouble (ltrim isUnder s) = true := by
  induction s with
  | nil => rfl
  | cons c cs ih =>
    by_cases hc : isUnder c = true
    · have h' : noDoubleAfter true cs = true := by
        simpa [noDouble, noDoubleAfter, hc] using h
      rw [ltrim, if_pos hc]
      exact ih (noDoubleAfter_false_of_true h')
    · simp only [Bool.not_eq_true] at hc
      rw [ltrim, if_neg (by simp [hc])]
      exact h

theorem rtrim_noDoubleAfter {s : List Char} :
    ∀ b, noDoubleAfter b s = true → noDoubleAfter b (rtrim isUnder s) = true := by
  induction s with
  | nil => intro b h; exact h
  | cons c cs ih =>
    intro b h
    rw [rtrim_cons]
    cases hr : rtrim isUnder cs with
    | nil =>
      by_cases hc : isUnder c = true
      · rw [if_pos hc]
        rfl
      · simp only [Bool.not_eq_true] at hc
        rw [if_neg (by simp [hc] : ¬ isUnder c = true)]
        rw [noDoubleAfter_cons, if_neg (by simp [hc] : ¬ isUnder c = true)]
        rfl
    | cons d ds =>
      by_cases hc : isUnder c = true
      · rw [noDoubleAfter_cons, if_pos hc, Bool.and_eq_true] at h
        have hthis := ih true h.2
        rw [hr] at hthis
        rw [noDoubleAfter_cons, if_pos hc, Bool.and_eq_true]
        exact ⟨h.1, hthis⟩
      · simp only [Bool.not_eq_true] at hc
        rw [noDoubleAfter_cons, if_neg (by simp [hc] : ¬ isUnder c = true)] at h
        have hthis := ih false h
        rw [hr] at hthis
        rw [noDoubleAfter_cons, if_neg (by simp [hc] : ¬ isUnder c = true)]
        exact hthis

theorem headNot_ltrim (p : Char → Bool) (s : List Char) :
    headNot p (ltrim p s) = true := by
  induction s with
  | nil => rfl
  | cons c cs ih =>
    by_cases hc : p c = true
    · rw [ltrim, if_pos hc]; exact ih
    · simp only [Bool.not_eq_true] at hc
      simp [ltrim, hc, headNot]

theorem headNot_rtrim {p q : Char → Bool} {s : List Char}
    (h : headNot q s = true) : headNot q (rtrim p s) = true := by
  cases s with
  | nil => rfl
  | cons c cs =>
    rw [rtrim_cons]
    cases rtrim p cs with
    | nil =>
      by_cases hc : p c = true
      · rw [if_pos hc]; rfl
      · simp only [Bool.not_eq_true] at hc
        rw [if_neg (by simp [hc] : ¬ p c = true)]
        exact h
    | cons d ds => exact h

theorem lastNot_rtrim (p : Char → Bool) (s : List Char) :
    lastNot p (rtrim p s) = true := by
  induction s with
  | nil => rfl
  | cons c cs ih =>
    rw [rtrim_cons]
    cases hr : rtrim p cs with
    | nil =>
      by_cases hc : p c = true
      · rw [if_pos hc]; rfl
      · simp only [Bool.not_eq_true] at hc
        rw [if_neg (by simp [hc] : ¬ p c = true)]
        simp [lastNot, hc]
    | cons d ds =>
      have hthis := ih
      rw [hr] at hthis
      exact hthis

theorem collapseAux_eq_self : ∀ (s : List Char) (b : Bool),
    noDoubleAfter b s = true → collapseAux b s = s := by
  intro s
  induction s with
  | nil => intro b _; rfl
  | cons c cs ih =>
    intro b h
    by_cases hc : isUnder c = true
    · rw [noDoubleAfter_cons, if_pos hc, Bool.and_eq_true, Bool.not_eq_true'] at h
      rw [collapseAux_cons, if_pos hc, h.1, if_neg (by simp), ih true h.2]
    · simp only [Bool.not_eq_true] at hc
      rw [noDoubleAfter_cons, if_neg (by simp [hc] : ¬ isUnder c = true)] at h
      rw [collapseAux_cons, if_neg (by simp [hc] : ¬ isUnder c = true), ih false h]

theorem subNonAlnumAux_eq_self : ∀ (s : List Char) (b : Bool),
    s.all okChar = true → noDoubleAfter b s = true → subNonAlnumAux b s = s := by
  intro s
  induction s with
  | nil => intro b _ _; rfl
  | cons c cs ih =>
    intro b hall h
    rw [List.all_cons, Bool.and_eq_true] at hall
    by_cases hc : isLowerAlnum c = true
    · have hu := isUnder_eq_false_of_isLowerAlnum hc
      rw [noDoubleAfter_cons, if_neg (by simp [hu] : ¬ isUnder c = true)] at h
      rw [subNonAlnumAux_cons, if_pos hc, ih false hall.2 h]
    · simp only [Bool.not_eq_true] at hc
      have hu : isUnder c = true := by
        rcases Bool.or_eq_true _ _ |>.mp hall.1 with h1 | h2
        · rw [hc] at h1; exact absurd h1 (by simp)
        · exact h2
      have hceq : c = '_' := of_decide_eq_true hu
      rw [noDoubleAfter_cons, if_pos hu, Bool.and_eq_true, Bool.not_eq_true'] at h
      rw [subNonAlnumAux_cons, if_neg (by simp [hc]), h.1, if_neg (by simp)]
      rw [ih true hall.2 h.2, hceq]

theorem all_not_space {s : List Char} (h : s.all okChar = true) :
    s.all (fun c => !isPySpace c) = true := by
  induction s with
  | nil => rfl
  | cons c cs ih =>
    rw [List.all_cons, Bool.and_eq_true] at h
    simp [List.all_cons, okChar_not_space h.1, ih h.2]

/-- Helper: the full shape invariant of `normalize_col` output. -/
theorem normalize_col_form (x : List Char) :
    underscoreAlnumForm (normalize_col x) = true := by
  have hall : (subNonAlnum ((pyStrip x).map pyLowerChar)).all okChar = true :=
    subNonAlnumAux_all false _
  have hcall := @collapseAux_all okChar _ hall false
  have hnd : noDouble (collapseAux false (subNonAlnum ((pyStrip x).map pyLowerChar)))
      = true := collapseAux_noDouble _ false
  have hl_all := @ltrim_all isUnder okChar _ hcall
  have hl_nd := ltrim_noDouble hnd
  have hs_all := @rtrim_all isUnder okChar _ hl_all
  have hs_nd := rtrim_noDoubleAfter false hl_nd
  have hs_head := @headNot_rtrim isUnder isUnder _
    (headNot_ltrim isUnder (collapseAux false (subNonAlnum ((pyStrip x).map pyLowerChar))))
  have hs_last := lastNot_rtrim isUnder
    (ltrim isUnder (collapseAux false (subNonAlnum ((pyStrip x).map pyLowerChar))))
  show underscoreAlnumForm
      (rtrim isUnder (ltrim isUnder
        (collapseAux false (subNonAlnum ((pyStrip x).map pyLowerChar))))) = true
  unfold underscoreAlnumForm underscoreOK noDouble
  rw [hs_all, hs_head, hs_last]
  rw [show noDoubleAfter false (rtrim isUnder (ltrim isUnder
    (collapseAux false (subNonAlnum ((pyStrip x).map pyLowerChar))))) = true from hs_nd]
  rfl

/-- Helper: any string in canonical shape is a fixed point of `normalize_col`. -/
theorem normalize_col_fix {r : List Char} (h : underscoreAlnumForm r = true) :
    normalize_col r = r := by
  unfold underscoreAlnumForm underscoreOK at h
  rw [Bool.and_eq_true, Bool.and_eq_true, Bool.and_eq_true] at h
  obtain ⟨hall, ⟨hhead, hlast⟩, hnd⟩ := h
  have hns : r.all (fun c => !isPySpace c) = true := all_not_space hall
  have h1 : pyStrip r = r := by
    unfold pyStrip pyStripWith
    rw [ltrim_eq_self (headNot_of_all hns), rtrim_eq_self_of_all hns]
  show rtrim isUnder (ltrim isUnder
    (collapseAux false (subNonAlnumAux false ((pyStrip r).map pyLowerChar)))) = r
  rw [h1, all_map_lower_fix hall]
  rw [subNonAlnumAux_eq_self r false hall hnd]
  rw [collapseAux_eq_self r false hnd]
  rw [ltrim_eq_self hhead, rtrim_eq_self_of_lastNot hlast]

/-- C5: for every input, the canonicalizer's output is a lowercase string of
alphanumeric runs joined by single underscores — never a leading, trailing, or
doubled underscore. -/
theorem normalize_col_canonical_shape (x : List Char) :
    underscoreAlnumForm (normalize_col x) = true :=
  normalize_col_form x

/-- C4: canonicalization is idempotent: `canon(canon(x)) = canon(x)`. -/
theorem normalize_col_idempotent (x : List Char) :
    normalize_col (normalize_col x) = normalize_col x :=
  normalize_col_fix (normalize_col_form x)

/-!
Base Homogenizer (`base_homogenize`, src lines 44-70).  Each source rule is a
Python regex of the shape `\bLIT(?:LIT)?_?LIT\b` substituted by a fixed
replacement.  Such a pattern matches exactly one of finitely many literal
words, bracketed by word boundaries; backtracking tries the alternatives of
each position in greedy order (optional group present before absent, optional
underscore present before absent).  `reSubWB` below performs the leftmost,
non-overlapping substitution of such a literal family: `\b` holds at a
position iff the previous character is absent or a non-word character (all the
literals begin and end with word characters).
-/

/-- Character class of the regex `\w` (ASCII): `[A-Za-z0-9_]`. -/
def isWordChar (c : Char) : Bool :=
  decide ((65 ≤ c.toNat ∧ c.toNat ≤ 90) ∨ (97 ≤ c.toNat ∧ c.toNat ≤ 122) ∨
    (48 ≤ c.toNat ∧ c.toNat ≤ 57) ∨ c.toNat = 95)

/-- Trailing word boundary: the character following the match, if any, is not a
word character. -/
def boundaryAfter : List Char → Bool
  | [] => true
  | c :: _ => !isWordChar c

/-- First alternative (in backtracking priority order) that matches at the head
of `s` with a trailing word boundary. -/
def firstMatch (alts : List (List Char)) (s : List Char) : Option (List Char) :=
  alts.find? (fun a => !a.isEmpty && a.isPrefixOf s && boundaryAfter (s.drop a.length))

/-- Scanner for `re.sub` of a word-bounded literal family.  `skip` counts the
characters of a match still to be consumed (the replacement was already
emitted); `prevW` records whether the previous character of the ORIGINAL
string was a word character (the `\b` test; boundaries are evaluated on the
original string, as Python does). -/
def reSubAux (alts : List (List Char)) (repl : List Char) :
    Nat → Bool → List Char → List Char
  | _ + 1, _, [] => []
  | k + 1, _, c :: cs => reSubAux alts repl k (isWordChar c) cs
  | 0, _, [] => []
  | 0, prevW, c :: cs =>
    if prevW then c :: reSubAux alts repl 0 (isWordChar c) cs
    else
      match firstMatch alts (c :: cs) with
      | some a => repl ++ reSubAux alts repl (a.length - 1) (isWordChar c) cs
      | none => c :: reSubAux alts repl 0 (isWordChar c) cs

/-- Model of `re.sub(r"\b<family>\b", repl, s)` for a literal family. -/
def reSubWB (alts : List (List Char)) (repl : List Char) (s : List Char) : List Char :=
  reSubAux alts repl 0 false s

/-- The eleven fixed substitutions of `base_homogenize` (src lines 52-67), in
source order; each pattern is listed as its literal alternatives in
backtracking priority order (greedy optionals first). -/
def baseRules : List (List (List Char) × List Char) :=
  [ (["policy_no", "policyno", "pol_no", "polno"].map String.toList,
      "policy_number".toList),
    (["policy_number", "policynumber"].map String.toList, "policy_number".toList),
    (["claim_no", "claimno"].map String.toList, "claim_number".toList),
    (["claim_number", "claimnumber"].map String.toList, "claim_number".toList),
    (["acct_id", "acctid"].map String.toList, "account_id".toList),
    (["loss_dt", "lossdt"].map String.toList, "loss_date".toList),
    (["loss_date", "lossdate"].map String.toList, "loss_date".toList),
    (["report_dt", "reportdt"].map String.toList, "report_date".toList),
    (["report_date", "reportdate"].map String.toList, "report_date".toList),
    (["effective_date", "effectivedate", "eff_date", "effdate"].map String.toList,
      "effective_date".toList),
    (["expiration_date", "expirationdate", "exp_date", "expdate"].map String.toList,
      "expiration_date".toList) ]

/-- Base Homogenizer, `base_homogenize` of src lines 44-70: the fixed rule
sequence applied in order (each rule reads the previous rule's output),
followed by `re.sub(r"_+", "_", s).strip("_")` (src line 69). -/
def base_homogenize (norm : List Char) : List Char :=
  stripUnder (collapseUnder
    (baseRules.foldl (fun s pr => reSubWB pr.1 pr.2 s) norm))

/-- C6: the base homogenizer, applying its fixed rule list in sequence, maps
the canonicalized keys `pol_no`, `claim_no` and `eff_date` to the canonical
names `policy_number`, `claim_number` and `effective_date`. -/
theorem base_homogenize_examples :
    base_homogenize "pol_no".toList = "policy_number".toList ∧
    base_homogenize "claim_no".toList = "claim_number".toList ∧
    base_homogenize "eff_date".toList = "effective_date".toList := by
  refine ⟨by decide, by decide, by decide⟩

/-!
Synonym Engine (`apply_synonyms`, src lines 18-41).  The user-supplied rule
table holds arbitrary regex patterns; Python's `re.sub` on an arbitrary
pattern is modelled by an oracle returning `Option (List Char)`, where `none`
stands for a raised exception (`re.error` on an invalid pattern, or any error
during substitution) and `some t` for a normal result `t`.  The source's
per-row `try`/`except` corresponds to the `none` branch leaving the running
value unchanged.
-/

/-- Oracle modelling `re.sub pattern replacement input` including failure. -/
def RegexOracle : Type :=
  List Char → List Char → List Char → Option (List Char)

/-- One synonym rule row: `enabled`, `pattern`, `replacement` (all strings,
as `str(row.get(...))` produces). -/
structure SynRule where
  enabled : List Char
  pattern : List Char
  replacement : List Char
deriving DecidableEq

/-- The body of the per-row loop of `apply_synonyms` (src lines 27-38): skip a
row whose `enabled` does not strip/upper to `"Y"`, skip an empty (stripped)
pattern, apply `re.sub` otherwise, and keep the running value unchanged when
the rule raises. -/
def applyRule (reSub : RegexOracle) (s : List Char) (row : SynRule) : List Char :=
  if pyUpper (pyStrip row.enabled) ≠ "Y".toList then s
  else if pyStrip row.pattern = [] then s
  else
    match reSub (pyStrip row.pattern) (pyStrip row.replacement) s with
    | some t => t
    | none => s

/-- Synonym Engine, `apply_synonyms` of src lines 18-41: an empty (or missing)
rule table returns the input unchanged (src lines 24-25); otherwise every rule
is folded over the running value in table order and the result gets
`re.sub(r"_+", "_", s).strip("_")` (src line 40). -/
def apply_synonyms (reSub : RegexOracle) (homogenized : List Char)
    (rules : List SynRule) : List Char :=
  if rules = [] then homogenized
  else stripUnder (collapseUnder (rules.foldl (applyRule reSub) homogenized))

theorem applyRule_eq_self_of_fail {reSub : RegexOracle} {row : SynRule}
    (hfail : ∀ t, reSub (pyStrip row.pattern) (pyStrip row.replacement) t = none)
    (s : List Char) : applyRule reSub s row = s := by
  unfold applyRule
  by_cases h1 : pyUpper (pyStrip row.enabled) ≠ "Y".toList
  · rw [if_pos h1]
  · rw [if_neg h1]
    by_cases h2 : pyStrip row.pattern = []
    · rw [if_pos h2]
    · rw [if_neg h2, hfail s]

theorem applyRule_eq_self_of_disabled {reSub : RegexOracle} {row : SynRule}
    (hdis : pyUpper (pyStrip row.enabled) ≠ "Y".toList)
    (s : List Char) : applyRule reSub s row = s := by
  unfold applyRule
  rw [if_pos hdis]

theorem foldl_applyRule_skip {reSub : RegexOracle} {r : SynRule}
    (hskip : ∀ s, applyRule reSub s r = s)
    (l1 l2 : List SynRule) (s : List Char) :
    (l1 ++ r :: l2).foldl (applyRule reSub) s = (l1 ++ l2).foldl (applyRule reSub) s := by
  rw [List.foldl_append, List.foldl_append, List.foldl_cons, hskip]

/-- C2: a rule that always raises (e.g. an invalid regex pattern) is skipped:
the engine never aborts, the fold over the rule table treats the bad rule as
the identity, and all other rules are still applied in table order to the
running value; the engine's final underscore collapse-and-trim still runs
(the rule table is nonempty). -/
theorem apply_synonyms_skips_failing_rule (reSub : RegexOracle)
    (l1 l2 : List SynRule) (r : SynRule) (s : List Char)
    (hfail : ∀ t, reSub (pyStrip r.pattern) (pyStrip r.replacement) t = none) :
    (l1 ++ r :: l2).foldl (applyRule reSub) s = (l1 ++ l2).foldl (applyRule reSub) s ∧
    apply_synonyms reSub s (l1 ++ r :: l2) =
      stripUnder (collapseUnder ((l1 ++ l2).foldl (applyRule reSub) s)) := by
  have hfold := foldl_applyRule_skip (applyRule_eq_self_of_fail hfail) l1 l2 s
  refine ⟨hfold, ?_⟩
  unfold apply_synonyms
  rw [if_neg (by simp), hfold]

/-- Oracle for the C2 witness: the pattern `[` is an invalid regex and always
raises; every other pattern replaces the whole input by the replacement when
the input equals the pattern (consistent with `re.sub` at the witness inputs). -/
def bracketOracle : RegexOracle :=
  fun p r s => if p = "[".toList then none else if s = p then some r else some s

theorem apply_synonyms_skips_failing_rule_witness :
    ([⟨"Y".toList, "a".toList, "b".toList⟩,
      ⟨"Y".toList, "[".toList, "x".toList⟩,
      ⟨"Y".toList, "b".toList, "c".toList⟩] : List SynRule).foldl
        (applyRule bracketOracle) "a".toList =
      ([⟨"Y".toList, "a".toList, "b".toList⟩,
        ⟨"Y".toList, "b".toList, "c".toList⟩] : List SynRule).foldl
          (applyRule bracketOracle) "a".toList ∧
    apply_synonyms bracketOracle "a".toList
        [⟨"Y".toList, "a".toList, "b".toList⟩,
         ⟨"Y".toList, "[".toList, "x".toList⟩,
         ⟨"Y".toList, "b".toList, "c".toList⟩] =
      stripUnder (collapseUnder
        (([⟨"Y".toList, "a".toList, "b".toList⟩,
           ⟨"Y".toList, "b".toList, "c".toList⟩] : List SynRule).foldl
            (applyRule bracketOracle) "a".toList)) :=
  apply_synonyms_skips_failing_rule bracketOracle
    [⟨"Y".toList, "a".toList, "b".toList⟩]
    [⟨"Y".toList, "b".toList, "c".toList⟩]
    ⟨"Y".toList, "[".toList, "x".toList⟩
    "a".toList (fun _ => rfl)

/-- Oracle whose substitutions always raise; rules that are skipped before the
substitution step never consult it. -/
def noneOracle : RegexOracle :=
  fun _ _ _ => none

/-- C7 counterexample: a rule whose enabled flag is `"N"` (not `"Y"`) in a
singleton table does change the engine's output relative to removing the rule,
because a nonempty table triggers the final underscore collapse-and-trim while
the empty table returns the input unchanged: on key `a__b` the results are
`a_b` versus `a__b`. -/
theorem disabled_rule_changes_output :
    apply_synonyms noneOracle "a__b".toList
        [⟨"N".toList, "x".toList, "y".toList⟩] = "a_b".toList ∧
    apply_synonyms noneOracle "a__b".toList [] = "a__b".toList ∧
    apply_synonyms noneOracle "a__b".toList
        [⟨"N".toList, "x".toList, "y".toList⟩] ≠
      apply_synonyms noneOracle "a__b".toList [] := by
  refine ⟨by decide, by decide, by decide⟩

/-- C7 amended: a rule whose enabled flag does not strip-and-uppercase to `"Y"`
never alters the running value: the fold over the rule table equals the fold
with that rule removed, whatever its pattern and replacement; the engine's
final underscore collapse-and-trim still runs on the nonempty table. -/
theorem apply_synonyms_skips_disabled_rule (reSub : RegexOracle)
    (l1 l2 : List SynRule) (r : SynRule) (s : List Char)
    (hdis : pyUpper (pyStrip r.enabled) ≠ "Y".toList) :
    (l1 ++ r :: l2).foldl (applyRule reSub) s = (l1 ++ l2).foldl (applyRule reSub) s ∧
    apply_synonyms reSub s (l1 ++ r :: l2) =
      stripUnder (collapseUnder ((l1 ++ l2).foldl (applyRule reSub) s)) := by
  have hfold := foldl_applyRule_skip
    (@applyRule_eq_self_of_disabled reSub r hdis) l1 l2 s
  refine ⟨hfold, ?_⟩
  unfold apply_synonyms
  rw [if_neg (by simp), hfold]

theorem apply_synonyms_skips_disabled_rule_witness :
    ([⟨"Y".toList, "a".toList, "b".toList⟩,
      ⟨"N".toList, "b".toList, "z".toList⟩] : List SynRule).foldl
        (applyRule bracketOracle) "a".toList =
      ([⟨"Y".toList, "a".toList, "b".toList⟩] : List SynRule).foldl
        (applyRule bracketOracle) "a".toList ∧
    apply_synonyms bracketOracle "a".toList
        [⟨"Y".toList, "a".toList, "b".toList⟩,
         ⟨"N".toList, "b".toList, "z".toList⟩] =
      stripUnder (collapseUnder
        (([⟨"Y".toList, "a".toList, "b".toList⟩] : List SynRule).foldl
          (applyRule bracketOracle) "a".toList)) :=
  apply_synonyms_skips_disabled_rule bracketOracle
    [⟨"Y".toList, "a".toList, "b".toList⟩] []
    ⟨"N".toList, "b".toList, "z".toList⟩
    "a".toList (by decide)

theorem stripCollapse_underscoreOK (u : List Char) :
    underscoreOK (stripUnder (collapseUnder u)) = true := by
  have hnd : noDouble (collapseAux false u) = true := collapseAux_noDouble u false
  have hl_nd := ltrim_noDouble hnd
  have hs_nd := rtrim_noDoubleAfter false hl_nd
  have hs_head := @headNot_rtrim isUnder isUnder _
    (headNot_ltrim isUnder (collapseAux false u))
  have hs_last := lastNot_rtrim isUnder (ltrim isUnder (collapseAux false u))
  show underscoreOK (rtrim isUnder (ltrim isUnder (collapseAux false u))) = true
  unfold underscoreOK noDouble
  rw [hs_head, hs_last]
  rw [show noDoubleAfter false (rtrim isUnder (ltrim isUnder (collapseAux false u)))
      = true from hs_nd]
  rfl

/-- C10 counterexample: with an empty rule table the synonym engine returns its
input unchanged (src lines 24-25 return before the collapse-and-trim of line
40), so its output can carry a doubled underscore. -/
theorem apply_synonyms_empty_keeps_double_underscore :
    apply_synonyms noneOracle "a__b".toList [] = "a__b".toList ∧
    underscoreOK (apply_synonyms noneOracle "a__b".toList []) = false := by
  refine ⟨by decide, by decide⟩

/-- C10 amended: the base homogenizer's output never carries a leading,
trailing, or doubled underscore, for every input; the synonym engine's output
satisfies the same invariant whenever the rule table is nonempty (an empty or
missing table returns the input unchanged). -/
theorem pipeline_underscore_invariant (reSub : RegexOracle)
    (t s : List Char) (rules : List SynRule) (hne : rules ≠ []) :
    underscoreOK (base_homogenize t) = true ∧
    underscoreOK (apply_synonyms reSub s rules) = true := by
  constructor
  · exact stripCollapse_underscoreOK _
  · unfold apply_synonyms
    rw [if_neg hne]
    exact stripCollapse_underscoreOK _

theorem pipeline_underscore_invariant_witness :
    underscoreOK (base_homogenize "pol no".toList) = true ∧
    underscoreOK (apply_synonyms noneOracle "pol__no".toList
      [⟨"Y".toList, "a".toList, "b".toList⟩]) = true :=
  pipeline_underscore_invariant noneOracle "pol no".toList "pol__no".toList
    [⟨"Y".toList, "a".toList, "b".toList⟩] (by decide)

/-- Modelled from the spec: the Confidence Scorer of section 4.4 has no
counterpart in `src/streamlit_app.py` (the source computes no transformation
confidence); the classification is taken from the spec's words: High when the
base stage and the synonym stage both changed the value, Medium when only the
base stage changed it, Low when the base stage left the normalized key
unchanged. -/
def confidence_class (normalized base final : List Char) : List Char :=
  if base ≠ normalized ∧ final ≠ base then "High".toList
  else if base ≠ normalized ∧ final = base then "Medium".toList
  else "Low".toList

/-- C1: the transformation confidence of a field occurrence is High exactly
when base differs from normalized and final differs from base, Medium exactly
when base differs from normalized and final equals base, and Low exactly when
base equals normalized. -/
theorem confidence_class_cases (n b f : List Char) :
    (confidence_class n b f = "High".toList ↔ b ≠ n ∧ f ≠ b) ∧
    (confidence_class n b f = "Medium".toList ↔ b ≠ n ∧ f = b) ∧
    (confidence_class n b f = "Low".toList ↔ b = n) := by
  unfold confidence_class
  by_cases h1 : b = n <;> by_cases h2 : f = b <;> simp [h1, h2]

/-- Sheet-name mapping of `df_to_excel_bytes` (src lines 73-80): each sheet
name (dict key, in insertion order) is truncated to the 31-character Excel
limit by `sheet_name[:31]`; no deduplication is performed. -/
def df_to_excel_sheet_names (sheets : List (List Char)) : List (List Char) :=
  sheets.map (fun n => n.take 31)

/-- The seven sheet names of the export dictionary (src lines 468-476). -/
def exportSheetNames : List (List Char) :=
  ["__Quick_Profile", "__Synonym_Rules", "__Field_Inventory", "__Distinct_Fields",
   "__CrossTab_Original", "__CrossTab_Homogenized",
   "__Report_Rationalisation"].map String.toList

/-- C8 counterexample: two distinct 32-character sheet names that agree on
their first 31 characters truncate to the same workbook sheet name, so
truncated names are NOT pairwise unique for every input mapping. -/
theorem sheet_name_truncation_collision :
    (List.replicate 31 'a' ++ ['b'] : List Char) ≠ List.replicate 31 'a' ++ ['c'] ∧
    (List.replicate 31 'a' ++ ['b'] : List Char).length > 31 ∧
    (List.replicate 31 'a' ++ ['c'] : List Char).length > 31 ∧
    ¬ (df_to_excel_sheet_names
        [List.replicate 31 'a' ++ ['b'], List.replicate 31 'a' ++ ['c']]).Nodup := by
  refine ⟨by decide, by decide, by decide, by decide⟩

/-- C8 amended: every sheet name is truncated to its first 31 characters
(names longer than 31 keep exactly 31 characters), and the truncated names
remain pairwise unique whenever the original names differ within their first
31 characters — as the workbook's fixed sheet set does. -/
theorem sheet_names_truncated_unique (names : List (List Char))
    (h : List.Pairwise (fun a b => a.take 31 ≠ b.take 31) names) :
    df_to_excel_sheet_names names = names.map (fun n => n.take 31) ∧
    names.map (fun n => (n.take 31).length) = names.map (fun n => min 31 n.length) ∧
    (df_to_excel_sheet_names names).Nodup := by
  refine ⟨rfl, ?_, ?_⟩
  · simp [List.length_take]
  · exact List.Pairwise.map _ (fun a b hab => hab) h

theorem sheet_names_truncated_unique_witness :
    df_to_excel_sheet_names exportSheetNames
        = exportSheetNames.map (fun n => n.take 31) ∧
    exportSheetNames.map (fun n => (n.take 31).length)
        = exportSheetNames.map (fun n => min 31 n.length) ∧
    (df_to_excel_sheet_names exportSheetNames).Nodup :=
  sheet_names_truncated_unique exportSheetNames (by decide)

/-!
Report Rationalization Scorer (`build_report_rationalization`, src lines
83-157).  `field_df` is modelled as a list of field-inventory rows; the float
arithmetic of the source is modelled over `ℚ` (the source also rounds the two
ratio columns to 3 decimals for display; the recommendation is computed from
the unrounded values, and the unrounded values are what the records below
hold).  `reports` keeps first-occurrence order instead of the sorted order of
`pandas.groupby`; no statement below depends on the order of the record list
beyond the final explicit sort.
-/

/-- One row of the field inventory `field_df` (src lines 310-318 / 329-337). -/
structure FieldRow where
  source_system : List Char
  file_name : List Char
  sheet_name : List Char
  report_name : List Char
  column_original : List Char
  column_normalized : List Char
  column_homogenized : List Char
deriving DecidableEq

/-- Distinct homogenized fields of one report (src lines 98-102: groupby
`report_name`, set of `column_homogenized`). -/
def report_fields (rows : List FieldRow) (r : List Char) : Finset (List Char) :=
  ((rows.filter (fun row => decide (row.report_name = r))).map
    (fun row => row.column_homogenized)).toFinset

/-- Number of distinct reports a homogenized field appears in (src lines
105-110: drop_duplicates, groupby `column_homogenized`, nunique). -/
def field_count (rows : List FieldRow) (f : List Char) : Nat :=
  ((rows.filter (fun row => decide (row.column_homogenized = f))).map
    (fun row => row.report_name)).toFinset.card

/-- The report keys (src line 112); first-occurrence order. -/
def reports_list (rows : List FieldRow) : List (List Char) :=
  (rows.map (fun row => row.report_name)).dedup

/-- Jaccard similarity (src lines 116-119): 0 when both sets are empty. -/
def jaccard (a b : Finset (List Char)) : ℚ :=
  if a = ∅ ∧ b = ∅ then 0
  else ((a ∩ b).card : ℚ) / ((a ∪ b).card : ℚ)

/-- One output row of the rationalization scorer (src lines 145-152). -/
structure RatRecord where
  report_name : List Char
  total_fields : Nat
  unique_fields : Nat
  uniqueness_ratio : ℚ
  avg_jaccard_overlap : ℚ
  recommendation : List Char
deriving DecidableEq

/-- The loop body of src lines 121-152 for one report `r`. -/
def rat_record (rows : List FieldRow) (r : List Char) : RatRecord :=
  let fields := report_fields rows r
  let total_fields := fields.card
  let unique_fields := (fields.filter (fun f => field_count rows f = 1)).card
  let uniqueness_ratio : ℚ :=
    if total_fields ≠ 0 then (unique_fields : ℚ) / (total_fields : ℚ) else 0
  let overlaps := ((reports_list rows).filter (fun o => decide (¬ o = r))).map
    (fun o => jaccard fields (report_fields rows o))
  let avg_overlap : ℚ :=
    if overlaps.length ≠ 0 then overlaps.sum / (overlaps.length : ℚ) else 0
  let recm : List Char :=
    if total_fields = 0 then "Review".toList
    else if uniqueness_ratio ≥ 35/100 then "Keep".toList
    else if avg_overlap ≥ 70/100 then "Merge".toList
    else "Review".toList
  ⟨r, total_fields, unique_fields, uniqueness_ratio, avg_overlap, recm⟩

/-- The unsorted record list (src lines 113-152). -/
def rationalization_rows (rows : List FieldRow) : List RatRecord :=
  (reports_list rows).map (rat_record rows)

/-- Lexicographic strict order on strings by code point, modelling the
ascending order `pandas.sort_values` uses on the string column. -/
def lexLt : List Char → List Char → Bool
  | [], [] => false
  | [], _ :: _ => true
  | _ :: _, [] => false
  | a :: as, b :: bs =>
    if a.toNat < b.toNat then true
    else if b.toNat < a.toNat then false
    else lexLt as bs

/-- Comparator of the final `sort_values` (src lines 154-157): recommendation
ascending, average overlap descending, uniqueness ratio ascending. -/
def ratRecLe (a b : RatRecord) : Bool :=
  if lexLt a.recommendation b.recommendation then true
  else if lexLt b.recommendation a.recommendation then false
  else if b.avg_jaccard_overlap < a.avg_jaccard_overlap then true
  else if a.avg_jaccard_overlap < b.avg_jaccard_overlap then false
  else decide (a.uniqueness_ratio ≤ b.uniqueness_ratio)

/-- `build_report_rationalization` of src lines 83-157: empty input yields an
empty output (src lines 94-95); otherwise the per-report records, sorted. -/
def build_report_rationalization (rows : List FieldRow) : List RatRecord :=
  if rows = [] then []
  else (rationalization_rows rows).mergeSort ratRecLe

/-- The recommendation policy as the claim words it. -/
def recommendation_policy_spec (total : Nat) (uratio avg : ℚ) : List Char :=
  if total = 0 then "Review".toList
  else if uratio ≥ 35/100 then "Keep".toList
  else if avg ≥ 70/100 then "Merge".toList
  else "Review".toList

/-- C3: every record of the rationalization output carries the recommendation
computed from its own metrics by the ordered policy: Review when the report
has no fields, else Keep when the uniqueness ratio reaches 0.35, else Merge
when the average overlap reaches 0.70, else Review. -/
theorem recommendation_follows_policy (rows : List FieldRow) (rr : RatRecord)
    (h : rr ∈ build_report_rationalization rows) :
    rr.recommendation = recommendation_policy_spec
      rr.total_fields rr.uniqueness_ratio rr.avg_jaccard_overlap := by
  unfold build_report_rationalization at h
  by_cases hrows : rows = []
  · rw [if_pos hrows] at h
    exact absurd h (List.not_mem_nil _)
  · rw [if_neg hrows, List.mem_mergeSort] at h
    unfold rationalization_rows at h
    obtain ⟨r, hrmem, rfl⟩ := List.mem_map.mp h
    rfl

/-- A one-row field inventory for the C3 witness. -/
def c3rows : List FieldRow :=
  [⟨"sys".toList, "f.csv".toList, "(csv)".toList, "A".toList,
    "Pol No".toList, "pol_no".toList, "policy_number".toList⟩]

theorem recommendation_follows_policy_witness :
    rat_record c3rows "A".toList ∈ build_report_rationalization c3rows ∧
    (rat_record c3rows "A".toList).recommendation = recommendation_policy_spec
      (rat_record c3rows "A".toList).total_fields
      (rat_record c3rows "A".toList).uniqueness_ratio
      (rat_record c3rows "A".toList).avg_jaccard_overlap := by
  have hmem : rat_record c3rows "A".toList ∈ build_report_rationalization c3rows := by
    show rat_record c3rows "A".toList ∈ (rationalization_rows c3rows).mergeSort ratRecLe
    rw [List.mem_mergeSort]
    show rat_record c3rows "A".toList ∈ [rat_record c3rows "A".toList]
    exact List.mem_singleton.mpr rfl
  exact ⟨hmem, recommendation_follows_policy c3rows _ hmem⟩

/-!
Upload processing loops (src lines 264-291 and 299-341).  A file is either a
CSV (dispatch on `f.name.lower().endswith(".csv")`, src lines 268/302) read by
`pd.read_csv`, or a workbook opened by `pd.ExcelFile` whose sheets are parsed
one by one by `xls.parse`.  Each pandas call may raise; a raised call is
modelled by `none`.  The whole per-file body runs inside `try`/`except`, so an
exception anywhere in it stops that file's processing (rows already appended
stay), reports a per-file error (`st.error`, src lines 289/339), and the loop
continues with the next file.
-/

/-- Result of a successful pandas read of one table: its row count and its
column headers in order. -/
structure ParsedDF where
  nrows : Nat
  cols : List (List Char)
deriving DecidableEq

/-- One uploaded file: its name, the outcome `pd.read_csv(f)` would have
(consulted when the lowered name ends with `.csv`), and the outcome
`pd.ExcelFile(f)` would have (consulted otherwise), with the per-sheet
outcomes of `xls.parse`.  `none` models a raised exception. -/
structure UFile where
  name : List Char
  csvRead : Option ParsedDF
  excelSheets : Option (List ((List Char) × Option ParsedDF))
deriving DecidableEq

/-- The `f.name.lower().endswith(".csv")` dispatch (src lines 268/302). -/
def isCsvName (n : List Char) : Bool :=
  ".csv".toList.isSuffixOf (n.map pyLowerChar)

/-- One profiling row (src lines 270-276 / 281-287). -/
structure ProfileRow where
  file_name : List Char
  sheet_name : List Char
  rows : Nat
  columns : Nat
  sample_columns : List Char
deriving DecidableEq

/-- `", ".join([str(c) for c in df.columns[:10]])`. -/
def sampleCols (cols : List (List Char)) : List Char :=
  List.intercalate ", ".toList (cols.take 10)

/-- Profiling row for one parsed table. -/
def mkProfileRow (fname sname : List Char) (d : ParsedDF) : ProfileRow :=
  ⟨fname, sname, d.nrows, d.cols.length, sampleCols d.cols⟩

/-- The inner sheet loop of src lines 279-287: rows accumulate per sheet until
a sheet whose `xls.parse` raises aborts the rest of the file (already
accumulated rows stay). -/
def profileSheets (fname : List Char) :
    List ((List Char) × Option ParsedDF) → List ProfileRow
  | [] => []
  | (_, none) :: _ => []
  | (sn, some d) :: rest => mkProfileRow fname sn d :: profileSheets fname rest

/-- The rows a single file contributes to `profile_rows` (src lines 266-289). -/
def profileFile (f : UFile) : List ProfileRow :=
  if isCsvName f.name then
    match f.csvRead with
    | none => []
    | some d => [mkProfileRow f.name "(csv)".toList d]
  else
    match f.excelSheets with
    | none => []
    | some sheets => profileSheets f.name sheets

/-- `profile_rows` of src lines 264-289 over the whole upload list. -/
def profile_rows (files : List UFile) : List ProfileRow :=
  (files.map profileFile).flatten

/-- Whether the per-file `except` branch of either loop runs for `f`. -/
def fileFails (f : UFile) : Bool :=
  if isCsvName f.name then f.csvRead.isNone
  else
    match f.excelSheets with
    | none => true
    | some sheets => sheets.any (fun p => p.2.isNone)

/-- Whether the very first pandas call on `f` (read_csv / ExcelFile) raises. -/
def openFails (f : UFile) : Bool :=
  if isCsvName f.name then f.csvRead.isNone else f.excelSheets.isNone

/-- The files reported by `st.error` (src lines 288-289 and 338-339), by name. -/
def failed_files (files : List UFile) : List (List Char) :=
  (files.filter (fun f => fileFails f)).map (fun f => f.name)

/-- One field-inventory row for one column of one report (src lines 305-318 /
324-337): the original header and the three-stage pipeline applied to it. -/
def mkFieldRow (reSub : RegexOracle) (rules : List SynRule)
    (ss fname sname rlabel col : List Char) : FieldRow :=
  let col_norm := normalize_col col
  let col_base := base_homogenize col_norm
  let col_homo := apply_synonyms reSub col_base rules
  ⟨ss, fname, sname, rlabel, col, col_norm, col_homo⟩

/-- The inner sheet loop of src lines 321-337. -/
def fieldSheets (reSub : RegexOracle) (rules : List SynRule)
    (ss fname : List Char) :
    List ((List Char) × Option ParsedDF) → List FieldRow
  | [] => []
  | (_, none) :: _ => []
  | (sn, some d) :: rest =>
    d.cols.map (mkFieldRow reSub rules ss fname sn
      (fname ++ " | ".toList ++ sn)) ++ fieldSheets reSub rules ss fname rest

/-- The rows a single file contributes to `field_rows` (src lines 300-339). -/
def fieldFile (reSub : RegexOracle) (rules : List SynRule)
    (ss : List Char) (f : UFile) : List FieldRow :=
  if isCsvName f.name then
    match f.csvRead with
    | none => []
    | some d =>
      d.cols.map (mkFieldRow reSub rules ss f.name "(csv)".toList
        (f.name ++ " | (csv)".toList))
  else
    match f.excelSheets with
    | none => []
    | some sheets => fieldSheets reSub rules ss f.name sheets

/-- `field_rows` of src lines 299-339 over the whole upload list. -/
def field_rows (reSub : RegexOracle) (rules : List SynRule)
    (ss : List Char) (files : List UFile) : List FieldRow :=
  (files.map (fieldFile reSub rules ss)).flatten

/-- C9 counterexample: a workbook whose second sheet fails to parse makes the
file fail (its error is reported), yet the sheet parsed before the failure has
already contributed a profiling row, so a failed file CAN contribute rows. -/
theorem failed_file_contributes_rows :
    fileFails ⟨"b.xlsx".toList, none,
      some [("s1".toList, some ⟨2, ["Pol No".toList]⟩), ("s2".toList, none)]⟩ = true ∧
    profile_rows [⟨"b.xlsx".toList, none,
      some [("s1".toList, some ⟨2, ["Pol No".toList]⟩), ("s2".toList, none)]⟩] =
      [⟨"b.xlsx".toList, "s1".toList, 2, 1, "Pol No".toList⟩] := by
  refine ⟨by decide, by decide⟩

/-- C9 amended: a failing file is reported as a per-file error and processing
continues — every file contributes its own rows independently of its
neighbours, in both loops; and a file whose opening pandas call raises
(read_csv for a CSV, ExcelFile for a workbook) contributes no rows to either
table.  (A multi-sheet workbook failing on a later sheet keeps the rows of the
sheets parsed before the failure, as the counterexample shows.) -/
theorem failing_file_isolated (reSub : RegexOracle) (rules : List SynRule)
    (ss : List Char) (l1 l2 : List UFile) (f : UFile)
    (hfail : fileFails f = true) (hopen : openFails f = true) :
    profile_rows (l1 ++ f :: l2) = profile_rows l1 ++ profileFile f ++ profile_rows l2 ∧
    field_rows reSub rules ss (l1 ++ f :: l2) =
      field_rows reSub rules ss l1 ++ fieldFile reSub rules ss f ++
        field_rows reSub rules ss l2 ∧
    f.name ∈ failed_files (l1 ++ f :: l2) ∧
    profileFile f = [] ∧
    fieldFile reSub rules ss f = [] := by
  refine ⟨?_, ?_, ?_, ?_, ?_⟩
  · simp [profile_rows]
  · simp [field_rows]
  · simp only [failed_files, List.mem_map]
    refine ⟨f, ?_, rfl⟩
    rw [List.mem_filter]
    exact ⟨by simp, hfail⟩
  · unfold profileFile
    unfold openFails at hopen
    by_cases hc : isCsvName f.name = true
    · rw [if_pos hc] at hopen ⊢
      rw [Option.isNone_iff_eq_none] at hopen
      rw [hopen]
    · simp only [Bool.not_eq_true] at hc
      rw [if_neg (by simp [hc])] at hopen ⊢
      rw [Option.isNone_iff_eq_none] at hopen
      rw [hopen]
  · unfold fieldFile
    unfold openFails at hopen
    by_cases hc : isCsvName f.name = true
    · rw [if_pos hc] at hopen ⊢
      rw [Option.isNone_iff_eq_none] at hopen
      rw [hopen]
    · simp only [Bool.not_eq_true] at hc
      rw [if_neg (by simp [hc])] at hopen ⊢
      rw [Option.isNone_iff_eq_none] at hopen
      rw [hopen]

theorem failing_file_isolated_witness :
    profile_rows [⟨"good.csv".toList, some ⟨1, ["a".toList]⟩, none⟩,
        ⟨"bad.csv".toList, none, none⟩] =
      profile_rows [⟨"good.csv".toList, some ⟨1, ["a".toList]⟩, none⟩] ++
        profileFile ⟨"bad.csv".toList, none, none⟩ ++ profile_rows [] ∧
    field_rows noneOracle [] "sys".toList
        [⟨"good.csv".toList, some ⟨1, ["a".toList]⟩, none⟩,
         ⟨"bad.csv".toList, none, none⟩] =
      field_rows noneOracle [] "sys".toList
          [⟨"good.csv".toList, some ⟨1, ["a".toList]⟩, none⟩] ++
        fieldFile noneOracle [] "sys".toList ⟨"bad.csv".toList, none, none⟩ ++
        field_rows noneOracle [] "sys".toList [] ∧
    "bad.csv".toList ∈ failed_files
      [⟨"good.csv".toList, some ⟨1, ["a".toList]⟩, none⟩,
       ⟨"bad.csv".toList, none, none⟩] ∧
    profileFile ⟨"bad.csv".toList, none, none⟩ = [] ∧
    fieldFile noneOracle [] "sys".toList ⟨"bad.csv".toList, none, none⟩ = [] :=
  failing_file_isolated noneOracle [] "sys".toList
    [⟨"good.csv".toList, some ⟨1, ["a".toList]⟩, none⟩] []
    ⟨"bad.csv".toList, none, none⟩ (by decide) (by decide)
